import Mathlib

/-
A shallow embedding of the Sublime Text plugin gotodocumentation.py.

The plugin inspects the word under each cursor, extracts a language tag
from the syntax scope string, and dispatches to a per-language handler
that either opens a documentation URL or runs a local help command whose
output is shown in an output panel.  Editor side effects are modelled as
an explicit Effect value; the worker thread and the decoding helper are
modelled as functions returning Except, where Except.error stands for a
Python exception escaping the component.
-/

namespace GotoDoc

/-- Editor side effects a handler can request from the host. -/
inductive Effect where
  | openUrl (url : String)
  | runLocal (cmd : List String)
  | status (msg : String)
deriving DecidableEq

/-- True on the effect built by the runLocal constructor. -/
def isRunLocal : Effect → Bool
  | .runLocal _ => true
  | _ => false

/-- True on the effect built by the openUrl constructor. -/
def isOpenUrl : Effect → Bool
  | .openUrl _ => true
  | _ => false

/-- Characters matched by the whitespace class of Python regular
expressions, restricted to ASCII (Python also matches other Unicode
space characters; none occur in the claims). -/
def isPySpace (c : Char) : Bool :=
  c = ' ' || c = '\t' || c = '\n' || c = '\r' || c = '\x0b' || c = '\x0c'

/-- Python re.match anchors at the beginning of the string, so matching
the pattern consisting of the whitespace class against a keyword succeeds
exactly when the first character is whitespace. -/
def startsWithPySpace (s : String) : Bool :=
  match s.data with
  | [] => false
  | c :: _ => isPySpace c

/-- True when some character of the string is Python regex whitespace. -/
def containsPySpace (s : String) : Bool :=
  s.data.any isPySpace

/-- The third component of Python rpartition of s at the dot separator:
the text after the last dot, or the whole string when no dot occurs. -/
def rpartitionAfterDot (s : String) : String :=
  ⟨(s.data.reverse.takeWhile (· != '.')).reverse⟩

/-- True when the first list is a leading segment of the second. -/
def leadsWith : List Char → List Char → Bool
  | [], _ => true
  | _ :: _, [] => false
  | a :: as, b :: bs => a = b && leadsWith as bs

/-- True when the first list occurs contiguously inside the second. -/
def occursIn (needle : List Char) : List Char → Bool
  | [] => needle.isEmpty
  | c :: t => leadsWith needle (c :: t) || occursIn needle t

/-- The Python membership test of one string inside another. -/
def strContains (hay needle : String) : Bool :=
  occursIn needle.data hay.data

/-- Python str.lower restricted to ASCII letters, the only case the
claims exercise. -/
def lowerStr (s : String) : String :=
  ⟨s.data.map Char.toLower⟩

/-- The dispatch tag computed by GotoDocumentationCommand.run: the text
after the last dot of the scope, overridden to the fixed tag processing
whenever the scope contains the marker substring source.pde. -/
def dispatchTag (scope : String) : String :=
  if strContains scope "source.pde" then "processing"
  else rpartitionAfterDot scope

/-- Handler for the php tag. -/
def php_doc (keyword : String) : Effect :=
  .openUrl ("http://php.net/" ++ keyword)

/-- Handler for the ahk tag. -/
def ahk_doc (keyword : String) : Effect :=
  .openUrl ("http://www.autohotkey.com/docs/commands/" ++ keyword ++ ".htm")

/-- Handler for the processing tag; the source formats the keyword
followed by an underscore and then appends the html extension. -/
def processing_doc (keyword : String) : Effect :=
  .openUrl ("http://www.processing.org/reference/" ++ keyword ++ "_" ++ ".html")

/-- Handler for the rails tag. -/
def rails_doc (keyword : String) : Effect :=
  .openUrl ("http://api.rubyonrails.org/?q=" ++ keyword)

/-- Handler for the controller tag. -/
def controller_doc (keyword : String) : Effect :=
  .openUrl ("http://api.rubyonrails.org/?q=" ++ keyword)

/-- Handler for the ruby tag. -/
def ruby_doc (keyword : String) : Effect :=
  .openUrl ("http://ruby-doc.com/search.html?q=" ++ keyword)

/-- Handler for the js tag. -/
def js_doc (keyword : String) : Effect :=
  .openUrl ("https://developer.mozilla.org/en-US/search?q=" ++ keyword)

/-- Handler for the coffee tag: the source aliases it to the js handler
by the class attribute assignment coffee_doc = js_doc. -/
def coffee_doc : String → Effect := js_doc

/-- Handler for the python tag: when re.match of the whitespace pattern
against the keyword fails, run pydoc locally; otherwise open the search
URL.  The match anchors at the start, so only a leading whitespace
character sends the keyword to the URL branch. -/
def python_doc (keyword : String) : Effect :=
  if !startsWithPySpace keyword then
    .runLocal ["python", "-m", "pydoc", keyword]
  else
    .openUrl ("http://docs.python.org/search.html?q=" ++ keyword)

/-- Handler for the clojure tag. -/
def clojure_doc (keyword : String) : Effect :=
  .openUrl ("http://clojuredocs.org/search?x=0&y=0&q=" ++ keyword)

/-- Handler for the go tag. -/
def go_doc (keyword : String) : Effect :=
  .openUrl ("http://golang.org/search?q=" ++ keyword)

/-- Handler for the smarty tag. -/
def smarty_doc (keyword : String) : Effect :=
  .openUrl ("http://www.smarty.net/" ++ keyword)

/-- Handler for the cmake tag; the source interpolates keyword.lower()
rather than the keyword itself. -/
def cmake_doc (keyword : String) : Effect :=
  .openUrl ("http://cmake.org/cmake/help/v2.8.8/cmake.html#command:" ++ lowerStr keyword)

/-- Handler for the perl tag. -/
def perl_doc (keyword : String) : Effect :=
  .openUrl ("http://perldoc.perl.org/search.html?q=" ++ keyword)

/-- Handler for the cs tag. -/
def cs_doc (keyword : String) : Effect :=
  .openUrl ("http://social.msdn.microsoft.com/Search/?query=" ++ keyword)

/-- The fallback of the dynamic lookup: a transient status message that
names the text after the last dot of the raw scope. -/
def unsupported (_keyword scope : String) : Effect :=
  .status ("This scope is not supported: " ++ rpartitionAfterDot scope)

/-- The dynamic attribute lookup getattr self of the tag with the _doc
suffix: the class attributes whose names carry that suffix are exactly
the handlers below, so the lookup is a finite table keyed by tag. -/
def getHandler (tag : String) : Option (String → Effect) :=
  if tag = "php" then some php_doc
  else if tag = "ahk" then some ahk_doc
  else if tag = "processing" then some processing_doc
  else if tag = "rails" then some rails_doc
  else if tag = "controller" then some controller_doc
  else if tag = "ruby" then some ruby_doc
  else if tag = "js" then some js_doc
  else if tag = "coffee" then some coffee_doc
  else if tag = "python" then some python_doc
  else if tag = "clojure" then some clojure_doc
  else if tag = "go" then some go_doc
  else if tag = "smarty" then some smarty_doc
  else if tag = "cmake" then some cmake_doc
  else if tag = "perl" then some perl_doc
  else if tag = "cs" then some cs_doc
  else none

/-- Processing of one non-empty word region by the run method: compute
the dispatch tag, look up its handler, and fall back to unsupported. -/
def dispatchOne (scope keyword : String) : Effect :=
  match getHandler (dispatchTag scope) with
  | some h => h keyword
  | none => unsupported keyword scope

/-- Data the run method reads from one selection region: whether the
word region under it is empty, and if not, the scope string at the word
and the word text itself. -/
structure SelRegion where
  wordEmpty : Bool
  scope : String
  keyword : String

/-- Per-region behaviour of the run method: an empty word region is
skipped entirely, a non-empty one is dispatched. -/
def processRegion (r : SelRegion) : List Effect :=
  if r.wordEmpty then [] else [dispatchOne r.scope r.keyword]

/-- The run method of GotoDocumentationCommand: iterate the selection
regions in order, acting independently on each. -/
def runCommand (rs : List SelRegion) : List Effect :=
  rs.flatMap processRegion

/-- The run method of GotoDocumentationOutputCommand acting on the text
of the panel view: when clear is set, erase the region from 0 to the
view size, then insert the output at position 0. -/
def outputCommandRun (buf output : String) (clear : Bool) : String :=
  let remaining := if clear then "" else buf
  output ++ remaining

/-- True when the effect opens a URL whose text contains the given
string contiguously. -/
def effectUrlContains (e : Effect) (k : String) : Bool :=
  match e with
  | .openUrl u => strContains u k
  | _ => false

/-- A Python value reaching the decoding helper: either text already in
string form, or raw bytes (each entry a byte value 0 to 255). -/
inductive PyText where
  | str (s : String)
  | bytes (b : List Nat)

/-- The Python exceptions relevant to this component.  Except.error with
one of these models the exception escaping the function it occurs in. -/
inductive PyError where
  | unicodeDecodeError
  | lookupError
  | osError
deriving DecidableEq

/-- True for a UTF-8 continuation byte. -/
def isCont (b : Nat) : Bool :=
  0x80 ≤ b && b ≤ 0xBF

/-- Strict UTF-8 decoding of a byte list, following the standard table:
overlong forms, surrogate code points and values above 0x10FFFF are
rejected, as the strict Python utf-8 codec rejects them. -/
def utf8DecodeAux : List Nat → Option (List Char)
  | [] => some []
  | b :: rest =>
    if b < 0x80 then
      (utf8DecodeAux rest).map (fun cs => Char.ofNat b :: cs)
    else if b < 0xC2 then none
    else if b ≤ 0xDF then
      match rest with
      | c1 :: r =>
        if isCont c1 then
          (utf8DecodeAux r).map (fun cs => Char.ofNat ((b - 0xC0) * 0x40 + (c1 - 0x80)) :: cs)
        else none
      | [] => none
    else if b ≤ 0xEF then
      match rest with
      | c1 :: c2 :: r =>
        let lo1 := if b = 0xE0 then 0xA0 else 0x80
        let hi1 := if b = 0xED then 0x9F else 0xBF
        if (lo1 ≤ c1 && c1 ≤ hi1) && isCont c2 then
          (utf8DecodeAux r).map (fun cs =>
            Char.ofNat ((b - 0xE0) * 0x1000 + (c1 - 0x80) * 0x40 + (c2 - 0x80)) :: cs)
        else none
      | _ => none
    else if b ≤ 0xF4 then
      match rest with
      | c1 :: c2 :: c3 :: r =>
        let lo1 := if b = 0xF0 then 0x90 else 0x80
        let hi1 := if b = 0xF4 then 0x8F else 0xBF
        if (lo1 ≤ c1 && c1 ≤ hi1) && isCont c2 && isCont c3 then
          (utf8DecodeAux r).map (fun cs =>
            Char.ofNat ((b - 0xF0) * 0x40000 + (c1 - 0x80) * 0x1000 +
              (c2 - 0x80) * 0x40 + (c3 - 0x80)) :: cs)
        else none
      | _ => none
    else none

/-- Modelled Python codec registry, with the codecs the claims exercise:
utf-8 strict, ascii strict and latin-1; any other encoding name makes
the codec lookup itself fail, as Python raises LookupError there. -/
def decodeBytes (enc : String) (b : List Nat) : Except PyError String :=
  if enc = "utf-8" then
    match utf8DecodeAux b with
    | some cs => .ok ⟨cs⟩
    | none => .error .unicodeDecodeError
  else if enc = "ascii" then
    if b.all (fun n => n < 0x80) then .ok ⟨b.map Char.ofNat⟩
    else .error .unicodeDecodeError
  else if enc = "latin-1" then
    .ok ⟨b.map Char.ofNat⟩
  else
    .error .lookupError

/-- The decoding helper of the plugin.  Under Python 3 a str value has
no decode attribute, so the getattr call raises AttributeError at once;
that is caught and answered by casting to str, leaving the input
unchanged.  For bytes, the utf-8 decode is attempted first; a Unicode
error from it is caught and the fallback encoding tried, and any error
raised by that second decode is not caught by anything. -/
def make_text_safeish (text : PyText) (fallback_encoding : String) : Except PyError String :=
  match text with
  | .str s => .ok s
  | .bytes b =>
    match decodeBytes "utf-8" b with
    | .ok u => .ok u
    | .error .unicodeDecodeError => decodeBytes fallback_encoding b
    | .error e => .error e

/-- Outcome of the subprocess machinery inside CommandThread.run, as the
Python library defines it: Popen raises an OSError (for instance
FileNotFoundError) when the program cannot be started, and it never
raises CalledProcessError, which belongs to the check_call family; when
the process runs, communicate returns the combined output whatever the
exit status is, raising nothing. -/
inductive ProcOutcome where
  | completed (returncode : Int) (output : PyText)
  | calledProcessError (returncode : Int)
  | launchError (e : PyError)

/-- What one run of the worker either hands to the completion callback
or lets escape. -/
inductive WorkerResult where
  | deliveredText (s : String)
  | deliveredCode (rc : Int)
  | raised (e : PyError)
deriving DecidableEq

/-- CommandThread.run: launch the process and deliver the decoded
output; the except clause catches only CalledProcessError, delivering
its returncode, so every other exception escapes the method. -/
def commandThreadRun (outcome : ProcOutcome) (fallback_encoding : String) : WorkerResult :=
  match outcome with
  | .completed _ output =>
    match make_text_safeish output fallback_encoding with
    | .ok s => .deliveredText s
    | .error e => .raised e
  | .calledProcessError rc => .deliveredCode rc
  | .launchError e => .raised e

/-- A list is a leading segment of itself followed by anything. -/
theorem leadsWith_self_append (l s : List Char) : leadsWith l (l ++ s) = true := by
  induction l with
  | nil => rfl
  | cons a t ih => simp [leadsWith, ih]

/-- A list occurs at the very front of itself followed by anything. -/
theorem occursIn_here (n s : List Char) : occursIn n (n ++ s) = true := by
  cases n with
  | nil => cases s <;> rfl
  | cons a t =>
    show (leadsWith (a :: t) ((a :: t) ++ s) || occursIn (a :: t) (t ++ s)) = true
    rw [leadsWith_self_append]
    rfl

/-- A list occurs inside any list that sandwiches it. -/
theorem occursIn_sandwich (n p s : List Char) : occursIn n (p ++ n ++ s) = true := by
  induction p with
  | nil => exact occursIn_here n s
  | cons c p2 ih =>
    show (leadsWith n ((c :: p2) ++ n ++ s) || occursIn n (p2 ++ n ++ s)) = true
    rw [ih]
    simp

/-- String containment holds for a sandwiched middle part. -/
theorem strContains_sandwich (p k s : String) : strContains (p ++ k ++ s) k = true := by
  simp only [strContains, String.data_append]
  exact occursIn_sandwich k.data p.data s.data

/-- String containment holds for a suffix. -/
theorem strContains_suffix (p k : String) : strContains (p ++ k) k = true := by
  simp only [strContains, String.data_append]
  have h := occursIn_sandwich k.data p.data []
  simpa using h

/-- String containment holds with two constant pieces after the part. -/
theorem strContains_mid (p k s t : String) : strContains (p ++ k ++ s ++ t) k = true := by
  simp only [strContains, String.data_append]
  have h := occursIn_sandwich k.data p.data (s.data ++ t.data)
  simpa [List.append_assoc] using h

/-- Taking while a predicate holds stops no later than an element that
fails it, whatever follows. -/
theorem takeWhile_stop {α : Type} (q : α → Bool) (x : α) (hx : q x = false) (l r : List α) :
    (l ++ x :: r).takeWhile q = l.takeWhile q := by
  induction l with
  | nil => simp [List.takeWhile_cons, hx]
  | cons a t ih =>
    cases h : q a with
    | true => simp [List.takeWhile_cons, h, ih]
    | false => simp [List.takeWhile_cons, h]

/-- Claim C1, counterexample: the keyword given as letter a, space,
letter b contains a whitespace character, yet the python handler runs
the local pydoc command instead of opening the search URL, because
re.match inspects only the start of the keyword.  This falsifies the
claim that the URL fallback is taken whenever the keyword contains any
whitespace anywhere. -/
theorem c1_counterexample :
    containsPySpace "a b" = true ∧
    python_doc "a b" = .runLocal ["python", "-m", "pydoc", "a b"] :=
  ⟨by decide, rfl⟩

/-- Claim C1, amended: the python handler takes the external command
path exactly when the keyword does not begin with a whitespace
character, and the URL fallback exactly when it does begin with one;
the two paths are exclusive.  Whitespace after the first character never
reaches the URL path. -/
theorem c1_amended (keyword : String) :
    python_doc keyword =
      (if startsWithPySpace keyword then
        Effect.openUrl ("http://docs.python.org/search.html?q=" ++ keyword)
      else Effect.runLocal ["python", "-m", "pydoc", keyword]) ∧
    isRunLocal (python_doc keyword) = !startsWithPySpace keyword ∧
    isOpenUrl (python_doc keyword) = startsWithPySpace keyword := by
  unfold python_doc
  cases h : startsWithPySpace keyword <;> simp [h, isRunLocal, isOpenUrl]

/-- Claim C3, counterexample: the cmake handler lowercases the keyword,
so for the keyword ADD the URL it builds contains no occurrence of the
keyword verbatim at all. -/
theorem c3_counterexample :
    effectUrlContains (cmake_doc "ADD") "ADD" = false := by decide

/-- Claim C3, amended: every URL-building handler interpolates the
keyword verbatim into its URL, where it occurs contiguously, except the
cmake handler, whose URL contains the lowercased keyword in place of
the keyword itself; the python handler interpolates the keyword
verbatim whenever it builds a URL at all. -/
theorem c3_amended (k : String) :
    effectUrlContains (php_doc k) k = true ∧
    effectUrlContains (ahk_doc k) k = true ∧
    effectUrlContains (processing_doc k) k = true ∧
    effectUrlContains (rails_doc k) k = true ∧
    effectUrlContains (controller_doc k) k = true ∧
    effectUrlContains (ruby_doc k) k = true ∧
    effectUrlContains (js_doc k) k = true ∧
    effectUrlContains (coffee_doc k) k = true ∧
    effectUrlContains (clojure_doc k) k = true ∧
    effectUrlContains (go_doc k) k = true ∧
    effectUrlContains (smarty_doc k) k = true ∧
    effectUrlContains (perl_doc k) k = true ∧
    effectUrlContains (cs_doc k) k = true ∧
    effectUrlContains (cmake_doc k) (lowerStr k) = true ∧
    (!startsWithPySpace k || effectUrlContains (python_doc k) k) = true := by
  refine ⟨strContains_suffix _ _, strContains_sandwich _ _ _, strContains_mid _ _ _ _,
    strContains_suffix _ _, strContains_suffix _ _, strContains_suffix _ _,
    strContains_suffix _ _, strContains_suffix _ _, strContains_suffix _ _,
    strContains_suffix _ _, strContains_suffix _ _, strContains_suffix _ _,
    strContains_suffix _ _, strContains_suffix _ _, ?_⟩
  cases h : startsWithPySpace k with
  | false => rfl
  | true =>
    have hu : python_doc k = .openUrl ("http://docs.python.org/search.html?q=" ++ k) := by
      unfold python_doc
      rw [h]
      rfl
    rw [hu]
    show (false || strContains ("http://docs.python.org/search.html?q=" ++ k) k) = true
    rw [strContains_suffix]
    rfl

/-- Claim C6: any scope string containing the marker substring
source.pde dispatches under the fixed override tag processing, whatever
its trailing dotted component is. -/
theorem c6_pde_override (scope : String) (h : strContains scope "source.pde" = true) :
    dispatchTag scope = "processing" := by
  unfold dispatchTag
  rw [h]
  rfl

/-- Claim C6, witness: a scope containing source.pde whose trailing
component is a different word still dispatches as processing. -/
theorem c6_witness :
    strContains "source.pde.x" "source.pde" = true ∧
    dispatchTag "source.pde.x" = "processing" :=
  ⟨by decide, c6_pde_override "source.pde.x" (by decide)⟩

/-- Claim C7: when the dispatch tag has no registered handler, the
command produces exactly one status message naming the trailing dotted
component of the scope, and no other effect of any kind. -/
theorem c7_unsupported_status (scope keyword : String)
    (h : getHandler (dispatchTag scope) = none) :
    dispatchOne scope keyword =
      .status ("This scope is not supported: " ++ rpartitionAfterDot scope) := by
  unfold dispatchOne
  rw [h]
  rfl

/-- Claim C7, witness: the haskell scope has no handler and yields the
status message naming haskell, and that alone. -/
theorem c7_witness :
    getHandler (dispatchTag "source.haskell") = none ∧
    rpartitionAfterDot "source.haskell" = "haskell" ∧
    dispatchOne "source.haskell" "fmap" =
      .status ("This scope is not supported: " ++ rpartitionAfterDot "source.haskell") :=
  ⟨rfl, rfl, c7_unsupported_status "source.haskell" "fmap" rfl⟩

/-- Claim C8: writing to the panel with clear set replaces the whole
content, so two successive writes leave exactly the second text, and a
single write with clear set leaves exactly its text. -/
theorem c8_clear_idempotent (buf t1 t2 : String) :
    outputCommandRun (outputCommandRun buf t1 true) t2 true = t2 ∧
    outputCommandRun buf t2 true = t2 := by
  constructor <;> simp [outputCommandRun]

/-- Claim C9: the coffee handler is the js handler, the dispatch table
yields the same entry for both tags, and dispatching a coffee scope has
exactly the effect of dispatching a js scope, for every keyword. -/
theorem c9_coffee_js_alias (k : String) :
    coffee_doc k = js_doc k ∧
    getHandler "coffee" = getHandler "js" ∧
    dispatchOne "source.coffee" k = dispatchOne "source.js" k :=
  ⟨rfl, rfl, rfl⟩

/-- Claim C5, counterexample: for the scope string consisting of the
word source followed by a dot, the extracted tag is the empty string,
falsifying the part of the claim that calls the tag non-empty for every
scope string. -/
theorem c5_counterexample : ¬ (rpartitionAfterDot "source." ≠ "") :=
  fun h => h rfl

/-- Claim C5, amended: the extracted tag is the text after the last dot
(the scope splits as a prefix followed by the tag, and the tag itself
contains no dot), it is unchanged by prepending further dotted
components, and it is empty exactly when the scope is empty or ends in
a dot, hence non-empty for every other scope string. -/
theorem c5_amended (p s : String) :
    rpartitionAfterDot (p ++ "." ++ s) = rpartitionAfterDot s ∧
    '.' ∉ (rpartitionAfterDot s).data ∧
    (∃ pre : List Char, s.data = pre ++ (rpartitionAfterDot s).data) ∧
    (rpartitionAfterDot s = "" ↔ s.data = [] ∨ s.data.getLast? = some '.') := by
  have hq : (('.' : Char) != '.') = false := by decide
  refine ⟨?_, ?_, ?_, ?_, ?_⟩
  · have hd : (p ++ "." ++ s).data.reverse
        = s.data.reverse ++ '.' :: p.data.reverse := by
      rw [String.data_append, String.data_append]
      rw [List.reverse_append, List.reverse_append]
      rfl
    unfold rpartitionAfterDot
    rw [hd, takeWhile_stop (fun x => x != '.') '.' hq]
  · show '.' ∉ (s.data.reverse.takeWhile (· != '.')).reverse
    intro hmem
    have := List.mem_takeWhile_imp (List.mem_reverse.mp hmem)
    simp at this
  · refine ⟨(s.data.reverse.dropWhile (· != '.')).reverse, ?_⟩
    show s.data
        = (s.data.reverse.dropWhile (· != '.')).reverse
          ++ (s.data.reverse.takeWhile (· != '.')).reverse
    rw [← List.reverse_append, List.takeWhile_append_dropWhile, List.reverse_reverse]
  · intro h
    have hl : (s.data.reverse.takeWhile (· != '.')).reverse = [] := congrArg String.data h
    rw [List.reverse_eq_nil_iff] at hl
    cases hrev : s.data.reverse with
    | nil =>
      left
      exact List.reverse_eq_nil_iff.mp hrev
    | cons c t =>
      right
      rw [hrev, List.takeWhile_cons] at hl
      by_cases hc : (c != '.') = true
      · rw [if_pos hc] at hl
        exact absurd hl (List.cons_ne_nil _ _)
      · have hcd : c = '.' := by simpa using hc
        rw [← List.head?_reverse, hrev, hcd]
        rfl
  · intro h
    cases h with
    | inl h0 =>
      have hrev : s.data.reverse = [] := by rw [h0]; rfl
      unfold rpartitionAfterDot
      rw [hrev]
      rfl
    | inr hlast =>
      have hh : s.data.reverse.head? = some '.' := by rw [List.head?_reverse]; exact hlast
      cases hrev : s.data.reverse with
      | nil =>
        rw [hrev] at hh
        exact absurd hh (by simp)
      | cons c t =>
        rw [hrev] at hh
        have hc : c = '.' := by simpa using hh
        unfold rpartitionAfterDot
        rw [hrev, hc, List.takeWhile_cons, if_neg (by simp)]
        rfl

/-- Claim C10: a selection region whose word region is empty is skipped
entirely, contributing no effect at all, while non-empty word regions
around it are processed independently, each contributing exactly its
dispatch effect. -/
theorem c10_empty_word_skipped (pre post : List SelRegion) (r rn : SelRegion)
    (h : r.wordEmpty = true) (hn : rn.wordEmpty = false) :
    runCommand (pre ++ r :: post) = runCommand pre ++ runCommand post ∧
    runCommand (pre ++ rn :: post) =
      runCommand pre ++ dispatchOne rn.scope rn.keyword :: runCommand post := by
  constructor <;>
    simp [runCommand, List.flatMap_append, List.flatMap_cons, processRegion, h, hn]

/-- Claim C10, witness: with one empty word region between two non-empty
ones, the run produces exactly the two dispatch effects of the non-empty
regions. -/
theorem c10_witness :
    (SelRegion.mk true "source.python" "x").wordEmpty = true ∧
    (SelRegion.mk false "source.php" "strlen").wordEmpty = false ∧
    (runCommand ([] ++ SelRegion.mk true "source.python" "x" :: []) =
        runCommand [] ++ runCommand [] ∧
      runCommand ([] ++ SelRegion.mk false "source.php" "strlen" :: []) =
        runCommand [] ++
          dispatchOne "source.php" "strlen" :: runCommand []) :=
  ⟨rfl, rfl, c10_empty_word_skipped [] [] _ _ rfl rfl⟩

/-- Claim C2, evaluation at the failing inputs: when the process cannot
be started, Popen raises an OSError, which the except clause catching
only CalledProcessError lets escape the worker, so nothing is delivered
to the callback; and when the process runs but exits abnormally,
nothing is raised at all, so the combined output text, not the exit
code, is delivered.  Both contradict the claim that such failures are
swallowed and replaced by the delivered exit code. -/
theorem c2_failing_eval :
    commandThreadRun (.launchError .osError) "" = .raised .osError ∧
    commandThreadRun (.completed 1 (.str "no documentation found")) "" =
      .deliveredText "no documentation found" :=
  ⟨rfl, rfl⟩

/-- Claim C4, counterexample: the byte 255 is undecodable as utf-8, and
with ascii as the fallback encoding the second decode fails as well;
that failure is outside the try block, so the error escapes the helper,
falsifying the claim that the helper never raises. -/
theorem c4_counterexample :
    make_text_safeish (.bytes [0xFF]) "ascii" = .error .unicodeDecodeError :=
  rfl

/-- Claim C4, amended: input already in string form is returned
unchanged without error, and byte input that fails the utf-8 decode is
decoded with the caller-supplied fallback encoding and that result
returned, provided the fallback decode itself succeeds; when the
fallback decode also fails, its error propagates out of the helper. -/
theorem c4_amended (b : List Nat) (fb r : String)
    (h1 : decodeBytes "utf-8" b = .error .unicodeDecodeError)
    (h2 : decodeBytes fb b = .ok r) :
    make_text_safeish (.bytes b) fb = .ok r ∧
    ∀ s : String, make_text_safeish (.str s) fb = .ok s := by
  constructor
  · simp only [make_text_safeish]
    rw [h1]
    exact h2
  · intro s
    rfl

/-- Claim C4, witness: the byte 255 fails the utf-8 decode, decodes
under the latin-1 fallback to the single character of code point 255,
and the helper returns exactly that; string input passes through. -/
theorem c4_witness :
    decodeBytes "utf-8" [0xFF] = .error .unicodeDecodeError ∧
    decodeBytes "latin-1" [0xFF] = .ok "ÿ" ∧
    (make_text_safeish (.bytes [0xFF]) "latin-1" = .ok "ÿ" ∧
      ∀ s : String, make_text_safeish (.str s) "latin-1" = .ok s) :=
  ⟨rfl, rfl, c4_amended [0xFF] "latin-1" "ÿ" rfl rfl⟩

end GotoDoc
